import Mathlib

/-!
Verification of the incremental discovery and manifest engine of the
Imitation_Learning_Data_Pipeline repository
(`src/neura_pipeline/steps/discover_refactored.py`,
`src/neura_pipeline/fp/fingerprint.py`, `src/neura_pipeline/core/*.py`).

The embedding translates the Python source into executable Lean
definitions.  Filesystem observations (existence, stability-check result,
per-file stat/hash result) are inputs to the model, since they are the
values the Python code obtains from its syscalls.  SHA-256 digests are
modelled by their preimages (the exact byte stream, resp. the canonical
serialization, fed to the hasher): the code relies on the digest only as
an injective identity for that input.  Row timestamps (`discovered_at`)
and the constant `fingerprint_algo` tag are omitted from the row model;
every claim either ignores them or explicitly excludes timestamps.
-/

namespace Neura

/-- Lifecycle status of a manifest row (`core/statuses.py`, class `Status`). -/
inductive Status
  | NEW
  | CHANGED
  | UNCHANGED
  | MISSING_SIDE
  | DELETED
  | ORPHAN_VIDEO
  | PENDING
  | ERROR
deriving DecidableEq, Repr

/-- Structured diagnostic stored in the `errors` column.  The Python code
stores `json.dumps` of a small dict; we model the two shapes it ever
produces: the `bad_episode_name` reason for an unparseable filename and
the exception name/message dict for a fingerprinting failure. -/
inductive Diag
  | badEpisodeName
  | fingerprintException
deriving DecidableEq, Repr

/-- Result of `quick_file_fingerprint` for one file: `size`, `mtime_ns`
and the hex digest (kept abstract as a string, per file). -/
structure FileFP where
  size : Nat
  mtimeNs : Nat
  sha : String
deriving DecidableEq, Repr

/-- An episode fingerprint is modelled by the canonical serialization fed
to sha256 by `combine_episode_fingerprint`: `json.dumps(parts,
sort_keys=True)` over a string-keyed dict is an injective function of the
key-sorted entry list, so we represent the digest by that list. -/
abbrev Fingerprint := List (String × FileFP)

/-- What the engine observes about one file on disk: the result of
`.exists()`, the result of `stable_sleep_check`, and the outcome of
`quick_file_fingerprint` (`none` models the call raising an exception,
e.g. a stat or open failure). -/
structure FileObs where
  present : Bool
  stable : Bool
  fp : Option FileFP
deriving DecidableEq, Repr

/-- One scanned trajectory file: its chunk, the filename stem of the
parquet (`episode_XXXXXX`), and the observations of the parquet and of
the two expected camera videos. -/
structure EpisodeInput where
  chunk : String
  pqStem : String
  pq : FileObs
  front : FileObs
  wrist : FileObs
deriving DecidableEq, Repr

/-- One row of the manifest (`core/models.py`, `EpisodeManifestRow`),
minus `discovered_at` and the constant `fingerprint_algo` (see header). -/
structure Row where
  episode_index : Int
  chunk : String
  parquet_uri : Option String
  video_front_uri : Option String
  video_wrist_uri : Option String
  exists_front : Bool
  exists_wrist : Bool
  bytes_total : Nat
  fingerprint : Option Fingerprint
  status : Status
  errors : Option Diag
deriving DecidableEq, Repr

/-- The columns of the previous manifest consulted by
`discover_incremental`: the join selects `chunk`, `episode_index` and
`fingerprint`; deletion detection uses the keys. -/
structure PrevEntry where
  chunk : String
  episode_index : Int
  fingerprint : Option Fingerprint
deriving DecidableEq, Repr

/-- One `.mp4` file met by the orphan scan
(`cam_dir.glob("episode_*.mp4")` in deterministic sorted order): its
chunk, camera directory, filename stem, and observed size (`none` models
the file vanishing before `stat`, in which case the code records 0). -/
structure VideoFile where
  chunk : String
  cam : String
  stem : String
  sizeOpt : Option Nat
deriving DecidableEq, Repr

/-- The two camera views, `core/constants.py` `CAMERAS[0]`. -/
def camFront : String := "observation.images.front"

/-- The two camera views, `core/constants.py` `CAMERAS[1]`. -/
def camWrist : String := "observation.images.wrist"

/-- Characters after the last underscore of a stem: models
`path.stem.split("_")[-1]`. -/
def afterLastUnderscore (l : List Char) : List Char :=
  (l.reverse.takeWhile (fun c => c ≠ '_')).reverse

/-- Digit-string parse; models Python `int(s)` for a plain digit string
(the exotic forms `int` also accepts, such as inner underscores or
surrounding whitespace, cannot reach this point: the argument has been
split on underscores and globbed filenames carry no whitespace). -/
def parseDigits (l : List Char) : Option Nat :=
  if l = [] then none
  else if l.all (fun c => c.isDigit) then
    some (l.foldl (fun n c => 10 * n + (c.toNat - 48)) 0)
  else none

/-- Models `int(s)` including an optional leading minus sign. -/
def parseIntChars (l : List Char) : Option Int :=
  match l with
  | '-' :: rest => (parseDigits rest).map (fun n => -(n : Int))
  | _ => (parseDigits l).map (fun n => (n : Int))

/-- Models `episode_index_from_name`: `int(path.stem.split("_")[-1])`,
returning `None` when `int` raises. -/
def parseEpisodeIndex (stem : String) : Option Int :=
  parseIntChars (afterLastUnderscore stem.data)

/-- Decimal rendering of a natural number, zero-padded to width `w`. -/
def padZeros (w : Nat) (n : Nat) : String :=
  let s := Nat.toDigits 10 n
  String.mk (List.replicate (w - s.length) '0' ++ s)

/-- Models the Python format `f"episode_{ep_idx:06d}"` padding: total
width 6 including the sign. -/
def pad6 (i : Int) : String :=
  if i < 0 then "-" ++ padZeros 5 i.natAbs else padZeros 6 i.toNat

/-- Path of the parquet file relative to the data root
(`<data_root>/data/chunk-<chunk>/<stem>.parquet`); models `str(pq)`. -/
def pqUri (e : EpisodeInput) : String :=
  "data/chunk-" ++ e.chunk ++ "/" ++ e.pqStem ++ ".parquet"

/-- Models `LocalFS.video_path(chunk, cam, ep_idx)` relative to the data
root. -/
def videoUri (chunk cam : String) (i : Int) : String :=
  "videos/chunk-" ++ chunk ++ "/" ++ cam ++ "/episode_" ++ pad6 i ++ ".mp4"

/-- Path of an `.mp4` met by the orphan scan; models `str(mp4)`. -/
def videoUriOf (v : VideoFile) : String :=
  "videos/chunk-" ++ v.chunk ++ "/" ++ v.cam ++ "/" ++ v.stem ++ ".mp4"

/-- Strict lexicographic comparison of character lists by codepoint;
for UTF-8 encoded strings this agrees with the bytewise comparison
Python and polars use on `str` keys. -/
def charListLt : List Char → List Char → Bool
  | [], [] => false
  | [], _ :: _ => true
  | _ :: _, [] => false
  | a :: as, b :: bs => if a < b then true else if b < a then false else charListLt as bs

/-- Strict string comparison used for key sorting. -/
def strLt (a b : String) : Bool := charListLt a.data b.data

/-- Key ordering used by `json.dumps(..., sort_keys=True)` (Python sorts
the dict keys with the standard string order). -/
def keyLeProp (a b : String × FileFP) : Prop := strLt b.1 a.1 = false

instance : DecidableRel keyLeProp := fun a b =>
  inferInstanceAs (Decidable (strLt b.1 a.1 = false))

/-- Models `combine_episode_fingerprint`: serialize the mapping with keys
sorted and digest the serialization.  The digest is represented by its
preimage, the key-sorted entry list (see `Fingerprint`). -/
def combine_episode_fingerprint (parts : List (String × FileFP)) : Fingerprint :=
  List.insertionSort keyLeProp parts

/-- Models the `pending` loop of `fingerprint_episode`: some checked path
exists but `stable_sleep_check` fails on it. -/
def pendingCheck (e : EpisodeInput) : Bool :=
  (e.pq.present && !e.pq.stable) || (e.front.present && !e.front.stable)
    || (e.wrist.present && !e.wrist.stable)

/-- Models the `try` block of `fingerprint_episode`: fingerprint the
parquet, then each video that exists; `none` models the block raising.
The dict insertion order (parquet, front, wrist) is recorded as a list. -/
def partsOf (e : EpisodeInput) : Option (List (String × FileFP)) := do
  let pa ← e.pq.fp
  let l2 ← if e.front.present then (e.front.fp.map (fun b => [(camFront, b)])) else pure []
  let l3 ← if e.wrist.present then (e.wrist.fp.map (fun b => [(camWrist, b)])) else pure []
  pure ([("parquet", pa)] ++ l2 ++ l3)

/-- Row built by `fingerprint_episode` when the episode index cannot be
parsed from the filename. -/
def errorNameRow (e : EpisodeInput) : Row :=
  { episode_index := -1, chunk := e.chunk, parquet_uri := some (pqUri e),
    video_front_uri := none, video_wrist_uri := none,
    exists_front := false, exists_wrist := false,
    bytes_total := 0, fingerprint := none,
    status := Status.ERROR, errors := some Diag.badEpisodeName }

/-- Row built by `fingerprint_episode` when fingerprinting succeeds. -/
def scanRowOk (e : EpisodeInput) (i : Int) (ps : List (String × FileFP)) : Row :=
  { episode_index := i, chunk := e.chunk, parquet_uri := some (pqUri e),
    video_front_uri := if e.front.present then some (videoUri e.chunk camFront i) else none,
    video_wrist_uri := if e.wrist.present then some (videoUri e.chunk camWrist i) else none,
    exists_front := e.front.present, exists_wrist := e.wrist.present,
    bytes_total := (ps.map (fun q => q.2.size)).sum,
    fingerprint := some (combine_episode_fingerprint ps),
    status :=
      if pendingCheck e then Status.PENDING
      else if e.front.present && e.wrist.present then Status.NEW
      else Status.MISSING_SIDE,
    errors := none }

/-- Row built by `fingerprint_episode` when the `try` block raises:
`fingerprint = None; bytes_total = 0; pending = False`, so the status
falls through to `NEW` resp. `MISSING_SIDE`. -/
def scanRowFail (e : EpisodeInput) (i : Int) : Row :=
  { episode_index := i, chunk := e.chunk, parquet_uri := some (pqUri e),
    video_front_uri := if e.front.present then some (videoUri e.chunk camFront i) else none,
    video_wrist_uri := if e.wrist.present then some (videoUri e.chunk camWrist i) else none,
    exists_front := e.front.present, exists_wrist := e.wrist.present,
    bytes_total := 0, fingerprint := none,
    status :=
      if e.front.present && e.wrist.present then Status.NEW
      else Status.MISSING_SIDE,
    errors := some Diag.fingerprintException }

/-- Models `fingerprint_episode(fs, chunk, pq, full_hash=...)`. -/
def fingerprint_episode (e : EpisodeInput) : Row :=
  match parseEpisodeIndex e.pqStem with
  | none => errorNameRow e
  | some i =>
    match partsOf e with
    | some ps => scanRowOk e i ps
    | none => scanRowFail e i

/-- The manifest key `(chunk, episode_index)` of a row. -/
def keyOf (r : Row) : String × Int := (r.chunk, r.episode_index)

/-- The new status applied by the reconciliation `with_columns` of
`discover_incremental`: `ERROR` when the fresh fingerprint is null,
`UNCHANGED` when it equals the joined previous fingerprint (a null
previous fingerprint compares as null, which is not true), otherwise
the status is kept.  `fpPrev = none` models the left join finding no
match (null `fingerprint_prev`); `some none` models a matched previous
row whose own fingerprint is null. -/
def remapStatus (r : Row) (fpPrev : Option (Option Fingerprint)) : Status :=
  match r.fingerprint with
  | none => Status.ERROR
  | some f =>
    match fpPrev with
    | some (some g) => if f = g then Status.UNCHANGED else r.status
    | _ => r.status

/-- Models the polars left join of one current row against
`prev.select(["chunk", "episode_index", "fingerprint"])` followed by the
status `with_columns`: one output row per matching previous row, or a
single row joined against null when no key matches. -/
def remapRow (prev : List PrevEntry) (r : Row) : List Row :=
  if (prev.filter (fun p => p.chunk == r.chunk && p.episode_index == r.episode_index)).isEmpty then
    [{ r with status := remapStatus r none }]
  else
    (prev.filter (fun p => p.chunk == r.chunk && p.episode_index == r.episode_index)).map
      (fun p => { r with status := remapStatus r (some p.fingerprint) })

/-- The reconciliation pass of `discover_incremental`: skipped entirely
when no previous manifest exists (`prev is None`).  (The code also skips
it when `df_cur` is empty, which coincides with mapping over the empty
list.) -/
def remapAll (pm : Option (List PrevEntry)) (rows : List Row) : List Row :=
  match pm with
  | none => rows
  | some prev => rows.flatMap (remapRow prev)

/-- The `DELETED` row emitted for a previously-known key absent from the
current scan: all file fields cleared, no fingerprint. -/
def deletedRow (k : String × Int) : Row :=
  { episode_index := k.2, chunk := k.1, parquet_uri := none,
    video_front_uri := none, video_wrist_uri := none,
    exists_front := false, exists_wrist := false,
    bytes_total := 0, fingerprint := none,
    status := Status.DELETED, errors := none }

/-- Deletion detection of `discover_incremental`: the previous keys
(made unique) anti-joined against the current keys.  (The code guards on
`prev.height`, which coincides with the empty-list behaviour here.) -/
def deletionRows (pm : Option (List PrevEntry)) (curKeys : List (String × Int)) : List Row :=
  match pm with
  | none => []
  | some prev =>
    (((prev.map (fun p => (p.chunk, p.episode_index))).dedup).filter
      (fun k => decide (k ∉ curKeys))).map deletedRow

/-- The `ORPHAN_VIDEO` row emitted for a video with no current
trajectory-bearing key, referencing only its own camera view and
recording the video size (0 if the file vanished before `stat`). -/
def orphanRow (v : VideoFile) (i : Int) : Row :=
  { episode_index := i, chunk := v.chunk, parquet_uri := none,
    video_front_uri := if v.cam = camFront then some (videoUriOf v) else none,
    video_wrist_uri := if v.cam = camWrist then some (videoUriOf v) else none,
    exists_front := v.cam = camFront, exists_wrist := v.cam = camWrist,
    bytes_total := v.sizeOpt.getD 0, fingerprint := none,
    status := Status.ORPHAN_VIDEO, errors := none }

/-- The orphan scan of `discover_incremental` over the globbed `.mp4`
files (given in the code's deterministic chunk/camera/sorted-glob
order): a video whose stem yields no parseable episode index is skipped
(`except Exception: continue`), and a parseable one produces a row iff
its key is not among the current parquet keys. -/
def orphanRows (vids : List VideoFile) (pqKeys : List (String × Int)) : List Row :=
  vids.filterMap (fun v =>
    match parseEpisodeIndex v.stem with
    | none => none
    | some i => if (v.chunk, i) ∈ pqKeys then none else some (orphanRow v i))

/-- The lexicographic `(chunk, episode_index)` ordering of the final
`df_all.sort(["chunk", "episode_index"])`, as a boolean comparator. -/
def rowLe (a b : Row) : Bool :=
  strLt a.chunk b.chunk
    || (decide (a.chunk = b.chunk) && decide (a.episode_index ≤ b.episode_index))

/-- The sort relation of the final `df_all.sort(["chunk",
"episode_index"])`. -/
def rowLeProp (a b : Row) : Prop := rowLe a b = true

instance : DecidableRel rowLeProp := fun a b =>
  inferInstanceAs (Decidable (rowLe a b = true))

/-- Models `discover_incremental(data_root, manifest_out, ...)` up to
the persisted manifest `df_all`: `pm` is the previously persisted
manifest (`none` on a first run), `eps` the scanned trajectory files in
completion order of the fingerprinting tasks, `vids` the video files met
by the orphan scan.  The result is the row list written to the manifest
path (the polars sort is modelled by a stable sort; polars does not
promise any particular order among rows with equal sort keys). -/
def discover (pm : Option (List PrevEntry)) (eps : List EpisodeInput)
    (vids : List VideoFile) : List Row :=
  let dfCur := remapAll pm (eps.map fingerprint_episode)
  let curKeys := dfCur.map keyOf
  List.insertionSort rowLeProp (dfCur ++ deletionRows pm curKeys ++ orphanRows vids curKeys)

/-- The statuses of the actionable subset returned by
`discover_incremental` (everything but `UNCHANGED`). -/
def actionableStatuses : List Status :=
  [Status.NEW, Status.CHANGED, Status.MISSING_SIDE, Status.DELETED,
   Status.ORPHAN_VIDEO, Status.PENDING, Status.ERROR]

/-- The row set returned to the caller: the persisted manifest filtered
to the actionable statuses. -/
def discoverActionable (pm : Option (List PrevEntry)) (eps : List EpisodeInput)
    (vids : List VideoFile) : List Row :=
  (discover pm eps vids).filter (fun r => r.status ∈ actionableStatuses)

/-- Byte-level result of `quick_file_fingerprint` in `fp/fingerprint.py`:
`size`, `mtime_ns`, and the exact byte stream fed to the sha256 hasher
(the digest is an injective identity of that stream for the code's
purposes, so we keep the stream itself). -/
structure FileDigest where
  size : Nat
  mtimeNs : Nat
  digestInput : List Nat
deriving DecidableEq, Repr

/-- Default head/tail sample size, `core/constants.py` `SAMPLE_BYTES`. -/
def SAMPLE_BYTES : Nat := 65536

/-- Models `quick_file_fingerprint(fp, sample_bytes, full_hash)` on a
file whose content is the byte list `content` with modification time
`mtimeNs`.  With `full_hash` the whole content is streamed into the
hasher; otherwise a head of `sampleBytes` bytes is read and hashed and,
when `size > sample_bytes`, the file is seeked to `max(0, size -
sample_bytes)` and a tail of `sampleBytes` bytes is read and hashed. -/
def quick_file_fingerprint (content : List Nat) (mtimeNs : Nat)
    (sampleBytes : Nat) (fullHash : Bool) : FileDigest :=
  let size := content.length
  if fullHash then
    { size := size, mtimeNs := mtimeNs, digestInput := content }
  else
    let head := content.take sampleBytes
    if sampleBytes < size then
      { size := size, mtimeNs := mtimeNs,
        digestInput := head ++ content.drop (size - sampleBytes) }
    else
      { size := size, mtimeNs := mtimeNs, digestInput := head }

/-- Contents of the two paths touched by `write_atomic_parquet`: the
temporary file `out.suffix + ".tmp"` (in the same directory, hence the
same volume) and the canonical manifest path `out`.  `none` means the
path does not exist. -/
structure PersistState where
  tmpFile : Option (List Nat)
  outFile : Option (List Nat)
deriving DecidableEq, Repr

/-- Creation of the temporary file by `df.write_parquet(tmp)` (opening
truncates/creates it). -/
def createTmpOp (s : PersistState) : PersistState :=
  { s with tmpFile := some [] }

/-- One byte of `df.write_parquet(tmp)` being appended to the temporary
file. -/
def appendTmpOp (b : Nat) (s : PersistState) : PersistState :=
  { s with tmpFile := some ((s.tmpFile.getD []) ++ [b]) }

/-- The atomic `os.replace(tmp, out)`: the filesystem moves the complete
temporary file onto the canonical path in one step. -/
def renameOp (s : PersistState) : PersistState :=
  { tmpFile := none, outFile := s.tmpFile }

/-- Models `write_atomic_parquet(df, out)` as its sequence of
externally-visible filesystem effects: create the temp file, write the
serialized snapshot into it byte by byte, atomically rename it onto the
canonical path. -/
def persistOps (data : List Nat) : List (PersistState → PersistState) :=
  createTmpOp :: (data.map appendTmpOp ++ [renameOp])

/-- Run a sequence of filesystem effects from a starting state. -/
def runOps (ops : List (PersistState → PersistState)) (s : PersistState) : PersistState :=
  ops.foldl (fun t f => f t) s

/-- The state visible after the first `k` effects of
`write_atomic_parquet` — i.e. after an interruption at any point of the
persistence step. -/
def persistAfter (data : List Nat) (k : Nat) (s : PersistState) : PersistState :=
  runOps ((persistOps data).take k) s

/-! ### Order lemmas for the sort comparators -/

theorem charListLt_irrefl : ∀ l : List Char, charListLt l l = false
  | [] => rfl
  | a :: as => by
    simp only [charListLt, lt_self_iff_false, if_false]
    exact charListLt_irrefl as

theorem charListLt_asymm : ∀ {a b : List Char},
    charListLt a b = true → charListLt b a = false
  | [], [], h => by simp [charListLt] at h
  | [], _ :: _, _ => rfl
  | _ :: _, [], h => by simp [charListLt] at h
  | x :: xs, y :: ys, h => by
    rcases lt_trichotomy x y with hxy | hxy | hxy
    · simp [charListLt, hxy, lt_asymm hxy]
    · subst hxy
      simp only [charListLt, lt_self_iff_false, if_false] at h ⊢
      exact charListLt_asymm h
    · simp [charListLt, hxy, lt_asymm hxy] at h

theorem charListLt_trans : ∀ {a b c : List Char},
    charListLt a b = true → charListLt b c = true → charListLt a c = true
  | [], b, c, h1, h2 => by
    cases b with
    | nil => simp [charListLt] at h1
    | cons y ys =>
      cases c with
      | nil => simp [charListLt] at h2
      | cons z zs => rfl
  | _ :: _, [], _, h1, _ => by simp [charListLt] at h1
  | _ :: _, _ :: _, [], _, h2 => by simp [charListLt] at h2
  | x :: xs, y :: ys, z :: zs, h1, h2 => by
    rcases lt_trichotomy x y with hxy | hxy | hxy
    · rcases lt_trichotomy y z with hyz | hyz | hyz
      · simp [charListLt, lt_trans hxy hyz]
      · subst hyz; simp [charListLt, hxy]
      · simp [charListLt, hyz, lt_asymm hyz] at h2
    · subst hxy
      simp only [charListLt, lt_self_iff_false, if_false] at h1
      rcases lt_trichotomy x z with hxz | hxz | hxz
      · simp [charListLt, hxz]
      · subst hxz
        simp only [charListLt, lt_self_iff_false, if_false] at h2 ⊢
        exact charListLt_trans h1 h2
      · simp [charListLt, hxz, lt_asymm hxz] at h2
    · simp [charListLt, hxy, lt_asymm hxy] at h1

theorem charListLt_connex : ∀ {a b : List Char},
    charListLt a b = false → charListLt b a = false → a = b
  | [], [], _, _ => rfl
  | [], _ :: _, h1, _ => by simp [charListLt] at h1
  | _ :: _, [], _, h2 => by simp [charListLt] at h2
  | x :: xs, y :: ys, h1, h2 => by
    rcases lt_trichotomy x y with hxy | hxy | hxy
    · simp [charListLt, hxy] at h1
    · subst hxy
      simp only [charListLt, lt_self_iff_false, if_false] at h1 h2
      rw [charListLt_connex h1 h2]
    · simp [charListLt, hxy] at h2

theorem strLt_irrefl (s : String) : strLt s s = false :=
  charListLt_irrefl s.data

theorem strLt_asymm {a b : String} (h : strLt a b = true) : strLt b a = false :=
  charListLt_asymm h

theorem strLt_trans {a b c : String} (h1 : strLt a b = true)
    (h2 : strLt b c = true) : strLt a c = true :=
  charListLt_trans h1 h2

theorem strLt_connex {a b : String} (h1 : strLt a b = false)
    (h2 : strLt b a = false) : a = b := by
  cases a with
  | mk da =>
    cases b with
    | mk db => exact congrArg String.mk (charListLt_connex h1 h2)

theorem strLe_trans {a b c : String} (h1 : strLt b a = false)
    (h2 : strLt c b = false) : strLt c a = false := by
  by_contra hca
  rw [Bool.not_eq_false] at hca
  cases hab : strLt a b with
  | true =>
    have : strLt c b = true := strLt_trans hca hab
    rw [h2] at this
    exact Bool.false_ne_true this
  | false =>
    have hab2 : a = b := strLt_connex hab h1
    subst hab2
    rw [h2] at hca
    exact Bool.false_ne_true hca

instance : IsTrans (String × FileFP) keyLeProp :=
  ⟨fun _ _ _ h1 h2 => strLe_trans h1 h2⟩

instance : IsTotal (String × FileFP) keyLeProp := by
  constructor
  intro a b
  cases h : strLt b.1 a.1 with
  | false => exact Or.inl h
  | true => exact Or.inr (strLt_asymm h)

/-- Strict key comparison on fingerprint entries. -/
def entryKeyLt (a b : String × FileFP) : Prop := strLt a.1 b.1 = true

instance : IsAntisymm (String × FileFP) entryKeyLt := by
  constructor
  intro a b h1 h2
  rw [entryKeyLt] at h1 h2
  rw [strLt_asymm h1] at h2
  exact absurd h2 Bool.false_ne_true

instance : IsTrans Row rowLeProp := by
  constructor
  intro a b c h1 h2
  rw [rowLeProp, rowLe, Bool.or_eq_true, Bool.and_eq_true, decide_eq_true_eq,
    decide_eq_true_eq] at h1 h2 ⊢
  rcases h1 with h1 | ⟨h1e, h1i⟩
  · rcases h2 with h2 | ⟨h2e, h2i⟩
    · exact Or.inl (strLt_trans h1 h2)
    · rw [← h2e]
      exact Or.inl h1
  · rcases h2 with h2 | ⟨h2e, h2i⟩
    · rw [h1e]
      exact Or.inl h2
    · exact Or.inr ⟨h1e.trans h2e, le_trans h1i h2i⟩

instance : IsTotal Row rowLeProp := by
  constructor
  intro a b
  rw [rowLeProp, rowLeProp, rowLe, rowLe, Bool.or_eq_true, Bool.or_eq_true,
    Bool.and_eq_true, Bool.and_eq_true, decide_eq_true_eq, decide_eq_true_eq,
    decide_eq_true_eq, decide_eq_true_eq]
  cases h1 : strLt a.chunk b.chunk with
  | true => exact Or.inl (Or.inl rfl)
  | false =>
    cases h2 : strLt b.chunk a.chunk with
    | true => exact Or.inr (Or.inl rfl)
    | false =>
      have he : a.chunk = b.chunk := strLt_connex h1 h2
      rcases le_total a.episode_index b.episode_index with hi | hi
      · exact Or.inl (Or.inr ⟨he, hi⟩)
      · exact Or.inr (Or.inr ⟨he.symm, hi⟩)

/-- Strict comparison of rows by their `(chunk, episode_index)` key. -/
def rowKeyLt (a b : Row) : Prop :=
  strLt a.chunk b.chunk = true
    ∨ (a.chunk = b.chunk ∧ a.episode_index < b.episode_index)

instance : IsAntisymm Row rowKeyLt := by
  constructor
  intro a b h1 h2
  rcases h1 with h1 | ⟨h1e, h1i⟩
  · rcases h2 with h2 | ⟨h2e, h2i⟩
    · rw [strLt_asymm h1] at h2
      exact absurd h2 Bool.false_ne_true
    · rw [h2e] at h1
      rw [strLt_irrefl] at h1
      exact absurd h1 Bool.false_ne_true
  · rcases h2 with h2 | ⟨h2e, h2i⟩
    · rw [h1e] at h2
      rw [strLt_irrefl] at h2
      exact absurd h2 Bool.false_ne_true
    · exact absurd (lt_trans h1i h2i) (lt_irrefl _)

theorem rowLe_and_ne_key (a b : Row) (h : rowLeProp a b) (hne : keyOf a ≠ keyOf b) :
    rowKeyLt a b := by
  rw [rowLeProp, rowLe, Bool.or_eq_true, Bool.and_eq_true, decide_eq_true_eq,
    decide_eq_true_eq] at h
  rcases h with h | ⟨he, hi⟩
  · exact Or.inl h
  · refine Or.inr ⟨he, lt_of_le_of_ne hi (fun hii => hne ?_)⟩
    rw [keyOf, keyOf, he, hii]

theorem sorted_rows_unique {l₁ l₂ : List Row} (hp : l₁.Perm l₂)
    (hs₁ : l₁.Sorted rowLeProp) (hs₂ : l₂.Sorted rowLeProp)
    (hn : (l₁.map keyOf).Nodup) : l₁ = l₂ := by
  have hn₂ : (l₂.map keyOf).Nodup := ((hp.map keyOf).nodup_iff).mp hn
  have hk₁ : l₁.Pairwise (fun a b => keyOf a ≠ keyOf b) := by
    rw [List.Nodup, List.pairwise_map] at hn
    exact hn
  have hk₂ : l₂.Pairwise (fun a b => keyOf a ≠ keyOf b) := by
    rw [List.Nodup, List.pairwise_map] at hn₂
    exact hn₂
  have hstrict₁ : l₁.Sorted rowKeyLt :=
    (hs₁.and hk₁).imp (fun h => rowLe_and_ne_key _ _ h.1 h.2)
  have hstrict₂ : l₂.Sorted rowKeyLt :=
    (hs₂.and hk₂).imp (fun h => rowLe_and_ne_key _ _ h.1 h.2)
  exact List.eq_of_perm_of_sorted hp hstrict₁ hstrict₂

theorem entryLe_and_ne_key (a b : String × FileFP) (h : keyLeProp a b)
    (hne : a.1 ≠ b.1) : entryKeyLt a b := by
  rw [keyLeProp] at h
  rw [entryKeyLt]
  cases hab : strLt a.1 b.1 with
  | true => rfl
  | false => exact absurd (strLt_connex hab h) hne

theorem sorted_entries_unique {l₁ l₂ : List (String × FileFP)} (hp : l₁.Perm l₂)
    (hs₁ : l₁.Sorted keyLeProp) (hs₂ : l₂.Sorted keyLeProp)
    (hn : (l₁.map Prod.fst).Nodup) : l₁ = l₂ := by
  have hn₂ : (l₂.map Prod.fst).Nodup := ((hp.map Prod.fst).nodup_iff).mp hn
  have hk₁ : l₁.Pairwise (fun a b => a.1 ≠ b.1) := by
    rw [List.Nodup, List.pairwise_map] at hn
    exact hn
  have hk₂ : l₂.Pairwise (fun a b => a.1 ≠ b.1) := by
    rw [List.Nodup, List.pairwise_map] at hn₂
    exact hn₂
  have hstrict₁ : l₁.Sorted entryKeyLt :=
    (hs₁.and hk₁).imp (fun h => entryLe_and_ne_key _ _ h.1 h.2)
  have hstrict₂ : l₂.Sorted entryKeyLt :=
    (hs₂.and hk₂).imp (fun h => entryLe_and_ne_key _ _ h.1 h.2)
  exact List.eq_of_perm_of_sorted hp hstrict₁ hstrict₂

/-! ### Structural lemmas about the discovery pipeline -/

theorem discover_eq (pm : Option (List PrevEntry)) (eps : List EpisodeInput)
    (vids : List VideoFile) :
    discover pm eps vids =
      List.insertionSort rowLeProp
        (remapAll pm (eps.map fingerprint_episode)
          ++ deletionRows pm ((remapAll pm (eps.map fingerprint_episode)).map keyOf)
          ++ orphanRows vids ((remapAll pm (eps.map fingerprint_episode)).map keyOf)) :=
  rfl

theorem fingerprint_episode_cases (e : EpisodeInput) :
    (∃ i ps, parseEpisodeIndex e.pqStem = some i ∧ partsOf e = some ps
      ∧ fingerprint_episode e = scanRowOk e i ps)
    ∨ (∃ i, parseEpisodeIndex e.pqStem = some i ∧ partsOf e = none
      ∧ fingerprint_episode e = scanRowFail e i)
    ∨ (parseEpisodeIndex e.pqStem = none ∧ fingerprint_episode e = errorNameRow e) := by
  unfold fingerprint_episode
  cases hp : parseEpisodeIndex e.pqStem with
  | none => exact Or.inr (Or.inr ⟨rfl, rfl⟩)
  | some i =>
    cases hps : partsOf e with
    | none => exact Or.inr (Or.inl ⟨i, rfl, rfl, rfl⟩)
    | some ps => exact Or.inl ⟨i, ps, rfl, rfl, rfl⟩

theorem remapRow_shape {prev : List PrevEntry} {r0 : Row} :
    ∀ x ∈ remapRow prev r0, ∃ fpp, x = { r0 with status := remapStatus r0 fpp } := by
  intro x hx
  unfold remapRow at hx
  split at hx
  · rw [List.mem_singleton] at hx
    exact ⟨none, hx⟩
  · rw [List.mem_map] at hx
    obtain ⟨p, _, hpx⟩ := hx
    exact ⟨some p.fingerprint, hpx.symm⟩

theorem remapRow_ne_nil (prev : List PrevEntry) (r0 : Row) : remapRow prev r0 ≠ [] := by
  unfold remapRow
  split
  · simp
  · rename_i he
    intro hmap
    rw [List.map_eq_nil_iff] at hmap
    exact he (by rw [hmap]; rfl)

theorem exists_mem_remapRow (prev : List PrevEntry) (r0 : Row) :
    ∃ x ∈ remapRow prev r0, ∃ fpp, x = { r0 with status := remapStatus r0 fpp } := by
  obtain ⟨x, hx⟩ := List.exists_mem_of_ne_nil _ (remapRow_ne_nil prev r0)
  exact ⟨x, hx, remapRow_shape x hx⟩

theorem mem_remapAll {pm : Option (List PrevEntry)} {eps : List EpisodeInput} {x : Row} :
    x ∈ remapAll pm (eps.map fingerprint_episode) →
      ∃ e ∈ eps, ∃ fpp : Option (Option (Option Fingerprint)),
        x = (match fpp with
          | none => fingerprint_episode e
          | some f => { fingerprint_episode e with
              status := remapStatus (fingerprint_episode e) f }) := by
  intro hx
  cases pm with
  | none =>
    rw [remapAll, List.mem_map] at hx
    obtain ⟨e, he, hex⟩ := hx
    exact ⟨e, he, none, hex.symm⟩
  | some prev =>
    rw [remapAll, List.mem_flatMap] at hx
    obtain ⟨r0, hr0, hxr⟩ := hx
    rw [List.mem_map] at hr0
    obtain ⟨e, he, her⟩ := hr0
    obtain ⟨fpp, hfp⟩ := remapRow_shape x hxr
    subst her
    exact ⟨e, he, some fpp, hfp⟩

theorem keyOf_remap (r0 : Row) (s : Status) : keyOf { r0 with status := s } = keyOf r0 :=
  rfl

theorem remapAll_keys {pm : Option (List PrevEntry)} {rows : List Row}
    {k : String × Int} :
    k ∈ (remapAll pm rows).map keyOf ↔ k ∈ rows.map keyOf := by
  cases pm with
  | none => rw [remapAll]
  | some prev =>
    rw [remapAll, List.mem_map, List.mem_map]
    constructor
    · rintro ⟨x, hx, rfl⟩
      rw [List.mem_flatMap] at hx
      obtain ⟨r0, hr0, hxr⟩ := hx
      obtain ⟨fpp, rfl⟩ := remapRow_shape x hxr
      exact ⟨r0, hr0, rfl⟩
    · rintro ⟨r0, hr0, rfl⟩
      obtain ⟨x, hx, fpp, rfl⟩ := exists_mem_remapRow prev r0
      exact ⟨_, List.mem_flatMap.mpr ⟨r0, hr0, hx⟩, rfl⟩

theorem deletionRows_shape {pm : Option (List PrevEntry)} {ck : List (String × Int)} :
    ∀ r ∈ deletionRows pm ck, ∃ k, r = deletedRow k ∧ k ∉ ck := by
  intro r hr
  cases pm with
  | none => simp [deletionRows] at hr
  | some prev =>
    rw [deletionRows, List.mem_map] at hr
    obtain ⟨k, hk, hkr⟩ := hr
    rw [List.mem_filter, decide_eq_true_eq] at hk
    exact ⟨k, hkr.symm, hk.2⟩

theorem orphanRows_shape {vids : List VideoFile} {ck : List (String × Int)} :
    ∀ r ∈ orphanRows vids ck, ∃ v ∈ vids, ∃ i, parseEpisodeIndex v.stem = some i
      ∧ r = orphanRow v i ∧ (v.chunk, i) ∉ ck := by
  intro r hr
  rw [orphanRows, List.mem_filterMap] at hr
  obtain ⟨v, hv, hvr⟩ := hr
  revert hvr
  cases hp : parseEpisodeIndex v.stem with
  | none => intro hvr; exact Option.noConfusion hvr
  | some i =>
    intro hvr
    dsimp only at hvr
    by_cases hin : (v.chunk, i) ∈ ck
    · rw [if_pos hin] at hvr
      exact Option.noConfusion hvr
    · rw [if_neg hin] at hvr
      rw [Option.some_inj] at hvr
      exact ⟨v, hv, i, hp, hvr.symm, hin⟩

/-! ### Persistence model lemmas -/

theorem runOps_cons (f : PersistState → PersistState)
    (fs : List (PersistState → PersistState)) (s : PersistState) :
    runOps (f :: fs) s = runOps fs (f s) :=
  rfl

theorem runOps_append_split (a b : List (PersistState → PersistState)) (s : PersistState) :
    runOps (a ++ b) s = runOps b (runOps a s) :=
  List.foldl_append _ _ _ _

theorem runOps_appendTmp (l : List Nat) :
    ∀ (t : List Nat) (o : Option (List Nat)),
      runOps (l.map appendTmpOp) ⟨some t, o⟩ = ⟨some (t ++ l), o⟩ := by
  induction l with
  | nil => intro t o; simp [runOps]
  | cons b bs ih =>
    intro t o
    rw [List.map_cons, runOps_cons]
    have h1 : appendTmpOp b ⟨some t, o⟩ = ⟨some (t ++ [b]), o⟩ := rfl
    rw [h1, ih (t ++ [b]) o, List.append_assoc]
    rfl

theorem persistAfter_characterization (data : List Nat) (s0 : PersistState) (k : Nat) :
    persistAfter data k s0 =
      if k = 0 then s0
      else if k ≤ data.length + 1 then ⟨some (data.take (k - 1)), s0.outFile⟩
      else ⟨none, some data⟩ := by
  cases k with
  | zero => rfl
  | succ j =>
    rw [persistAfter, persistOps, List.take_succ_cons, runOps_cons]
    have hc : createTmpOp s0 = ⟨some [], s0.outFile⟩ := rfl
    rw [hc]
    by_cases hj : j ≤ data.length
    · rw [List.take_append_of_le_length (by simpa using hj), ← List.map_take,
        runOps_appendTmp]
      rw [if_neg (Nat.succ_ne_zero j), if_pos (by omega)]
      simp
    · rw [List.take_of_length_le (by simp; omega), runOps_append_split,
        runOps_appendTmp]
      rw [if_neg (Nat.succ_ne_zero j), if_neg (by omega)]
      rfl

/-! ### Claim C3 -/

/-- C3: if a discovery run fails at any point before the atomic rename of
the persistence step completes, the manifest file at the canonical path
is exactly the previous snapshot, unchanged; and a reader of that path
observes only a fully-written previous or new snapshot, never a partial
file.  `k` ranges over interruption points of `write_atomic_parquet`
(a failure of the run before persistence is even reached trivially leaves
the canonical path untouched, since only the final `os.replace` targets
it). -/
theorem write_atomic_parquet_atomicity (data : List Nat) (s0 : PersistState) (k : Nat) :
    (k < (persistOps data).length →
      (persistAfter data k s0).outFile = s0.outFile)
    ∧ (persistAfter data (persistOps data).length s0).outFile = some data
    ∧ ((persistAfter data k s0).outFile = s0.outFile
        ∨ (persistAfter data k s0).outFile = some data) := by
  have hlen : (persistOps data).length = data.length + 2 := by
    simp [persistOps]
  refine ⟨?_, ?_, ?_⟩
  · intro hk
    rw [hlen] at hk
    rw [persistAfter_characterization]
    split
    · rfl
    · split
      · rfl
      · omega
  · rw [persistAfter_characterization, hlen]
    rw [if_neg (by omega), if_neg (by omega)]
  · rw [persistAfter_characterization]
    split
    · exact Or.inl rfl
    · split
      · exact Or.inl rfl
      · exact Or.inr rfl

theorem write_atomic_parquet_atomicity_witness :
    (persistAfter [5, 6] 2 ⟨none, some [9]⟩).outFile = some [9] :=
  (write_atomic_parquet_atomicity [5, 6] ⟨none, some [9]⟩ 2).1 (by decide)

/-! ### Claim C5 -/

/-- Modelled from the spec: the condition under which the spec says the
tail sample is digested — the file exceeds twice the sample size. -/
def specTailCondition (size sampleBytes : Nat) : Prop := 2 * sampleBytes < size

/-- C5 counterexample: with sample size 2, a file of 3 bytes does not
exceed twice the sample size, yet `quick_file_fingerprint` digests a
tail sample in addition to the head sample (the digest input is
head `[1, 2]` followed by tail `[2, 3]`, not the head alone). -/
theorem quick_fingerprint_tail_threshold_cex :
    (quick_file_fingerprint [1, 2, 3] 0 2 false).digestInput
        = [1, 2, 3].take 2 ++ [1, 2, 3].drop 1
    ∧ (quick_file_fingerprint [1, 2, 3] 0 2 false).digestInput ≠ [1, 2, 3].take 2
    ∧ ¬ specTailCondition 3 2 := by
  refine ⟨by decide, by decide, ?_⟩
  rw [specTailCondition]
  decide

/-- C5 amended: with `full_hash` false, `quick_file_fingerprint` digests
a bounded head sample and digests an additional bounded tail sample if
and only if the file's size exceeds the sample size (not twice the
sample size); the digest input never exceeds `2 * sample_bytes` bytes,
so for files larger than twice the sample the whole file is never
read. -/
theorem quick_fingerprint_sampled (content : List Nat) (m sampleBytes : Nat)
    (h : 0 < sampleBytes) :
    ((quick_file_fingerprint content m sampleBytes false).digestInput.take sampleBytes
        = content.take sampleBytes)
    ∧ ((quick_file_fingerprint content m sampleBytes false).digestInput.length
          = 2 * sampleBytes
        ↔ sampleBytes < content.length)
    ∧ (quick_file_fingerprint content m sampleBytes false).digestInput.length
        ≤ 2 * sampleBytes
    ∧ (2 * sampleBytes < content.length →
        (quick_file_fingerprint content m sampleBytes false).digestInput.length
          < content.length) := by
  by_cases hlt : sampleBytes < content.length
  · have hq : (quick_file_fingerprint content m sampleBytes false).digestInput
        = content.take sampleBytes ++ content.drop (content.length - sampleBytes) := by
      rw [quick_file_fingerprint]
      rw [if_neg (by simp)]
      rw [if_pos hlt]
    rw [hq]
    have hlen : (content.take sampleBytes
        ++ content.drop (content.length - sampleBytes)).length = 2 * sampleBytes := by
      rw [List.length_append, List.length_take, List.length_drop]
      omega
    refine ⟨?_, ?_, ?_, ?_⟩
    · rw [List.take_append_of_le_length (by simp; omega), List.take_take]
      simp
    · rw [hlen]
      exact ⟨fun _ => hlt, fun _ => rfl⟩
    · rw [hlen]
    · intro hbig
      rw [hlen]
      omega
  · have hq : (quick_file_fingerprint content m sampleBytes false).digestInput
        = content.take sampleBytes := by
      rw [quick_file_fingerprint]
      rw [if_neg (by simp)]
      rw [if_neg hlt]
    rw [hq]
    have hlen : (content.take sampleBytes).length = content.length := by
      rw [List.length_take]
      omega
    refine ⟨?_, ?_, ?_, ?_⟩
    · rw [List.take_take]
      simp
    · rw [hlen]
      constructor
      · intro hcl
        omega
      · intro hcl
        exact absurd hcl hlt
    · rw [hlen]
      omega
    · intro hbig
      omega

theorem quick_fingerprint_sampled_witness :
    ((quick_file_fingerprint [1, 2, 3] 7 2 false).digestInput.take 2 = [1, 2, 3].take 2)
    ∧ ((quick_file_fingerprint [1, 2, 3] 7 2 false).digestInput.length = 2 * 2 ↔ 2 < 3)
    ∧ (quick_file_fingerprint [1, 2, 3] 7 2 false).digestInput.length ≤ 2 * 2
    ∧ (2 * 2 < 3 →
        (quick_file_fingerprint [1, 2, 3] 7 2 false).digestInput.length < 3) :=
  quick_fingerprint_sampled [1, 2, 3] 7 2 (by decide)

/-! ### Claim C6 -/

/-- C6: for mappings from logical file name to per-file fingerprint
(association lists with pairwise-distinct keys, as Python dicts are),
`combine_episode_fingerprint` produces the same serialized digest input
exactly when the two mappings hold the same key-value pairs, regardless
of iteration order; consequently changing, adding, or removing any entry
changes the serialized input to the digest. -/
theorem combine_episode_fingerprint_canonical (p q : List (String × FileFP))
    (hp : (p.map Prod.fst).Nodup) (_hq : (q.map Prod.fst).Nodup) :
    combine_episode_fingerprint p = combine_episode_fingerprint q ↔ p.Perm q := by
  constructor
  · intro h
    have h1 := List.perm_insertionSort keyLeProp p
    have h2 := List.perm_insertionSort keyLeProp q
    rw [combine_episode_fingerprint, combine_episode_fingerprint] at h
    exact h1.symm.trans (h ▸ h2)
  · intro hpq
    rw [combine_episode_fingerprint, combine_episode_fingerprint]
    have hperm : (List.insertionSort keyLeProp p).Perm (List.insertionSort keyLeProp q) :=
      (List.perm_insertionSort keyLeProp p).trans
        (hpq.trans (List.perm_insertionSort keyLeProp q).symm)
    have hnp : ((List.insertionSort keyLeProp p).map Prod.fst).Nodup :=
      (((List.perm_insertionSort keyLeProp p).map Prod.fst).nodup_iff).mpr hp
    exact sorted_entries_unique hperm
      (List.sorted_insertionSort keyLeProp p)
      (List.sorted_insertionSort keyLeProp q) hnp

theorem combine_episode_fingerprint_canonical_witness :
    combine_episode_fingerprint
        [("parquet", ⟨1, 2, "aa"⟩), (camFront, ⟨3, 4, "bb"⟩)]
      = combine_episode_fingerprint
        [(camFront, ⟨3, 4, "bb"⟩), ("parquet", ⟨1, 2, "aa"⟩)] :=
  (combine_episode_fingerprint_canonical
      [("parquet", ⟨1, 2, "aa"⟩), (camFront, ⟨3, 4, "bb"⟩)]
      [(camFront, ⟨3, 4, "bb"⟩), ("parquet", ⟨1, 2, "aa"⟩)]
      (by decide) (by decide)).mpr (List.Perm.swap _ _ _)

/-! ### Claim C10 -/

/-- C10: during the orphan-video scan, a globbed video file whose
filename does not yield a parseable episode index is silently skipped
and produces no manifest row at all — the discovery result is unchanged
by its presence — whereas an unparseable trajectory filename produces an
`ERROR` row with `episode_index` -1 and a `bad_episode_name`
diagnostic. -/
theorem orphan_scan_skips_unparseable (pm : Option (List PrevEntry))
    (eps : List EpisodeInput) (vids1 vids2 : List VideoFile) (v : VideoFile)
    (hv : parseEpisodeIndex v.stem = none) :
    discover pm eps (vids1 ++ v :: vids2) = discover pm eps (vids1 ++ vids2)
    ∧ ∀ e : EpisodeInput, parseEpisodeIndex e.pqStem = none →
        (fingerprint_episode e).status = Status.ERROR
        ∧ (fingerprint_episode e).episode_index = -1
        ∧ (fingerprint_episode e).errors = some Diag.badEpisodeName := by
  constructor
  · rw [discover_eq, discover_eq]
    have horph : ∀ ck, orphanRows (vids1 ++ v :: vids2) ck = orphanRows (vids1 ++ vids2) ck := by
      intro ck
      rw [orphanRows, orphanRows, List.filterMap_append, List.filterMap_append,
        List.filterMap_cons, hv]
    rw [horph]
  · intro e he
    rw [fingerprint_episode, he]
    exact ⟨rfl, rfl, rfl⟩

/-! ### Status characterization and counting helpers -/

theorem fingerprint_episode_status (e : EpisodeInput) :
    (fingerprint_episode e).status = Status.ERROR
    ∨ (fingerprint_episode e).status = Status.PENDING
    ∨ (fingerprint_episode e).status = Status.NEW
    ∨ (fingerprint_episode e).status = Status.MISSING_SIDE := by
  rcases fingerprint_episode_cases e with ⟨i, ps, _, _, hfe⟩ | ⟨i, _, _, hfe⟩ | ⟨_, hfe⟩
  · rw [hfe, scanRowOk]
    by_cases hp : pendingCheck e = true
    · right; left
      simp [hp]
    · by_cases hb : (e.front.present && e.wrist.present) = true
      · right; right; left
        simp [hp, hb]
      · right; right; right
        simp [hp, hb]
  · rw [hfe, scanRowFail]
    by_cases hb : (e.front.present && e.wrist.present) = true
    · right; right; left
      simp [hb]
    · right; right; right
      simp [hb]
  · left
    rw [hfe]
    rfl

theorem remapStatus_cases (r0 : Row) (fpp : Option (Option Fingerprint)) :
    remapStatus r0 fpp = Status.ERROR ∨ remapStatus r0 fpp = Status.UNCHANGED
    ∨ remapStatus r0 fpp = r0.status := by
  cases hf : r0.fingerprint with
  | none =>
    left
    unfold remapStatus
    rw [hf]
  | some f =>
    unfold remapStatus
    rw [hf]
    cases fpp with
    | none => right; right; rfl
    | some g =>
      cases g with
      | none => right; right; rfl
      | some gg =>
        by_cases hfg : f = gg
        · right; left
          simp [hfg]
        · right; right
          simp [hfg]

/-- Statuses a row of the reconciled scan can carry: never `DELETED` and
never `ORPHAN_VIDEO`. -/
theorem remapAll_status {pm : Option (List PrevEntry)} {eps : List EpisodeInput}
    {r : Row} (hr : r ∈ remapAll pm (eps.map fingerprint_episode)) :
    r.status ≠ Status.DELETED ∧ r.status ≠ Status.ORPHAN_VIDEO := by
  obtain ⟨e, he, fpp, hx⟩ := mem_remapAll hr
  have hbase := fingerprint_episode_status e
  cases fpp with
  | none =>
    subst hx
    rcases hbase with h | h | h | h <;> rw [h] <;> exact ⟨by decide, by decide⟩
  | some f =>
    subst hx
    show remapStatus (fingerprint_episode e) f ≠ Status.DELETED
      ∧ remapStatus (fingerprint_episode e) f ≠ Status.ORPHAN_VIDEO
    rcases remapStatus_cases (fingerprint_episode e) f with h | h | h
    · rw [h]
      exact ⟨by decide, by decide⟩
    · rw [h]
      exact ⟨by decide, by decide⟩
    · rw [h]
      rcases hbase with h2 | h2 | h2 | h2 <;> rw [h2] <;> exact ⟨by decide, by decide⟩

theorem countP_eq_one_of_nodup {α : Type} [DecidableEq α] :
    ∀ {l : List α}, l.Nodup → ∀ {a : α}, a ∈ l →
      l.countP (fun x => decide (x = a)) = 1 := by
  intro l
  induction l with
  | nil =>
    intro _ a ha
    exact absurd ha (List.not_mem_nil a)
  | cons x xs ih =>
    intro hn a ha
    rw [List.nodup_cons] at hn
    rw [List.countP_cons]
    rcases List.mem_cons.mp ha with rfl | hmem
    · have h0 : xs.countP (fun y => decide (y = a)) = 0 :=
        List.countP_eq_zero.mpr (fun b hb => by
          simp only [decide_eq_true_eq]
          intro hba
          exact hn.1 (hba ▸ hb))
      rw [h0]
      simp
    · rw [ih hn.2 hmem]
      have hxa : ¬ (x = a) := fun hxa => hn.1 (hxa ▸ hmem)
      simp [hxa]

theorem countP_le_one_of_nodup {α : Type} [DecidableEq α] {l : List α}
    (hn : l.Nodup) (a : α) : l.countP (fun x => decide (x = a)) ≤ 1 := by
  by_cases ha : a ∈ l
  · rw [countP_eq_one_of_nodup hn ha]
  · rw [List.countP_eq_zero.mpr (fun b hb => by
      simp only [decide_eq_true_eq]
      intro hba
      exact ha (hba ▸ hb))]
    omega

/-! ### Claim C1 -/

theorem mem_remapAll_some {prev : List PrevEntry} {eps : List EpisodeInput} {x : Row} :
    x ∈ remapAll (some prev) (eps.map fingerprint_episode) →
      ∃ e ∈ eps, ∃ fpp, x = { fingerprint_episode e with
        status := remapStatus (fingerprint_episode e) fpp } := by
  intro hx
  rw [remapAll, List.mem_flatMap] at hx
  obtain ⟨r0, hr0, hxr⟩ := hx
  rw [List.mem_map] at hr0
  obtain ⟨e, he, her⟩ := hr0
  obtain ⟨fpp, hfp⟩ := remapRow_shape x hxr
  subst her
  exact ⟨e, he, fpp, hfp⟩

/-- C1 amended: every manifest row carrying a diagnostic in `errors` has
`pending` forced false, no fingerprint and zero `bytes_total`, and —
whenever a previous manifest exists — status `ERROR`; and every scanned
episode whose fingerprint computation raises yields such an `ERROR` row
on a run with a previous manifest.  (On a first run with no previous
manifest the diagnostic is still captured, but the row carries `NEW` or
`MISSING_SIDE` instead of `ERROR`: the `ERROR` remap lives in the
reconciliation join, which is skipped when `prev is None`; see the
counterexample.) -/
theorem fingerprint_error_rows (prev : List PrevEntry) (eps : List EpisodeInput)
    (vids : List VideoFile) :
    (∀ r ∈ discover (some prev) eps vids, r.errors ≠ none →
      r.status = Status.ERROR ∧ r.fingerprint = none ∧ r.bytes_total = 0)
    ∧ (∀ e ∈ eps, ∀ i : Int, parseEpisodeIndex e.pqStem = some i → partsOf e = none →
        ∃ r ∈ discover (some prev) eps vids,
          r.parquet_uri = some (pqUri e) ∧ r.status = Status.ERROR
            ∧ r.errors = some Diag.fingerprintException ∧ r.fingerprint = none) := by
  constructor
  · intro r hr herr
    rw [discover_eq, List.mem_insertionSort, List.mem_append, List.mem_append] at hr
    rcases hr with (hr | hr) | hr
    · obtain ⟨e, he, fpp, hx⟩ := mem_remapAll_some hr
      subst hx
      rcases fingerprint_episode_cases e with ⟨i, ps, hpi, hps, hfe⟩
        | ⟨i, hpi, hps, hfe⟩ | ⟨hpi, hfe⟩
      · rw [hfe] at herr
        exact absurd rfl herr
      · rw [hfe] at herr ⊢
        exact ⟨rfl, rfl, rfl⟩
      · rw [hfe] at herr ⊢
        exact ⟨rfl, rfl, rfl⟩
    · obtain ⟨k, rfl, -⟩ := deletionRows_shape r hr
      exact absurd rfl herr
    · obtain ⟨v, -, i, -, rfl, -⟩ := orphanRows_shape r hr
      exact absurd rfl herr
  · intro e he i hpi hps
    have hfe : fingerprint_episode e = scanRowFail e i := by
      rw [fingerprint_episode, hpi, hps]
    obtain ⟨x, hx, fpp, hxe⟩ := exists_mem_remapRow prev (fingerprint_episode e)
    refine ⟨x, ?_, ?_, ?_, ?_, ?_⟩
    · rw [discover_eq, List.mem_insertionSort, List.mem_append, List.mem_append]
      left; left
      rw [remapAll, List.mem_flatMap]
      exact ⟨fingerprint_episode e, List.mem_map.mpr ⟨e, he, rfl⟩, hx⟩
    · rw [hxe, hfe]
      rfl
    · rw [hxe, hfe]
      rfl
    · rw [hxe, hfe]
      rfl
    · rw [hxe, hfe]
      rfl

theorem fingerprint_error_rows_witness :
    ∃ r ∈ discover (some [⟨"000", 9, none⟩])
        [⟨"000", "episode_000001", ⟨true, true, none⟩, ⟨false, true, none⟩,
          ⟨false, true, none⟩⟩] [],
      r.parquet_uri = some (pqUri ⟨"000", "episode_000001", ⟨true, true, none⟩,
          ⟨false, true, none⟩, ⟨false, true, none⟩⟩)
        ∧ r.status = Status.ERROR
        ∧ r.errors = some Diag.fingerprintException ∧ r.fingerprint = none :=
  (fingerprint_error_rows [⟨"000", 9, none⟩]
      [⟨"000", "episode_000001", ⟨true, true, none⟩, ⟨false, true, none⟩,
        ⟨false, true, none⟩⟩] []).2
    _ (by decide) 1 (by decide) (by decide)

/-- Fixture for the C1 counterexample: a first-run episode whose
parquet stat/open raises during fingerprinting. -/
def eFirstRunErr : EpisodeInput :=
  ⟨"000", "episode_000001", ⟨true, true, none⟩, ⟨false, true, none⟩, ⟨false, true, none⟩⟩

/-- C1 counterexample: on a first run (no previous manifest), an episode
whose fingerprint computation raises gets the diagnostic captured but is
persisted with status `MISSING_SIDE`, not `ERROR`: the `ERROR` remap is
inside the reconciliation join, which only runs when a previous manifest
exists. -/
theorem fingerprint_error_first_run_cex :
    (discover none [eFirstRunErr] []).map (fun r => (r.status, r.errors))
      = [(Status.MISSING_SIDE, some Diag.fingerprintException)] := by decide

/-! ### Claim C2 -/

/-- The previous fingerprint the left join associates with a key: the
first previous row matching the key, if any. -/
def lookupPrevFp (prev : List PrevEntry) (c : String) (i : Int) :
    Option (Option Fingerprint) :=
  (prev.find? (fun p => p.chunk == c && p.episode_index == i)).map
    (fun p => p.fingerprint)

theorem find_eq_filter_head (p : PrevEntry → Bool) :
    ∀ l : List PrevEntry, l.find? p = (l.filter p).head?
  | [] => rfl
  | x :: xs => by
    by_cases hx : p x = true
    · rw [List.find?_cons_of_pos _ hx, List.filter_cons_of_pos hx]
      rfl
    · rw [List.find?_cons_of_neg _ hx, List.filter_cons_of_neg hx,
        find_eq_filter_head p xs]

theorem remapRow_first (prev : List PrevEntry) (r0 : Row) :
    ∃ x ∈ remapRow prev r0,
      x = { r0 with
        status := remapStatus r0 (lookupPrevFp prev r0.chunk r0.episode_index) } := by
  rw [remapRow]
  cases hfil : prev.filter
      (fun p => p.chunk == r0.chunk && p.episode_index == r0.episode_index) with
  | nil =>
    have hl : lookupPrevFp prev r0.chunk r0.episode_index = none := by
      rw [lookupPrevFp, find_eq_filter_head, hfil]
      rfl
    rw [hl]
    rw [List.isEmpty_nil, if_pos rfl]
    exact ⟨_, List.mem_singleton_self _, rfl⟩
  | cons h t =>
    have hl : lookupPrevFp prev r0.chunk r0.episode_index = some h.fingerprint := by
      rw [lookupPrevFp, find_eq_filter_head, hfil]
      rfl
    rw [hl]
    rw [List.isEmpty_cons, if_neg (by simp)]
    exact ⟨_, List.mem_map.mpr ⟨h, List.mem_cons_self h t, rfl⟩, rfl⟩

theorem remapStatus_scanRowOk (e : EpisodeInput) (i : Int)
    (ps : List (String × FileFP)) (fpp : Option (Option Fingerprint)) :
    remapStatus (scanRowOk e i ps) fpp =
      (match fpp with
        | some (some g) =>
            if combine_episode_fingerprint ps = g then Status.UNCHANGED
            else (scanRowOk e i ps).status
        | _ => (scanRowOk e i ps).status) :=
  rfl

/-- C2 amended: for an episode whose fingerprint computation succeeds
and which has an existing not-yet-stable file, the per-episode resolver
does assign `PENDING` before any comparison with the previous
fingerprint; but the reconciliation pass afterwards downgrades any row
whose fresh fingerprint equals the previous run's fingerprint for the
same key to `UNCHANGED`, `PENDING` included.  Such a row is therefore
persisted `PENDING` only when no matching previous fingerprint exists,
and `UNCHANGED` when one does (see the counterexample). -/
theorem pending_row_reconciliation (prev : List PrevEntry) (eps : List EpisodeInput)
    (vids : List VideoFile) (e : EpisodeInput) (i : Int) (ps : List (String × FileFP))
    (he : e ∈ eps) (hpi : parseEpisodeIndex e.pqStem = some i)
    (hps : partsOf e = some ps) (hpend : pendingCheck e = true) :
    ∃ r ∈ discover (some prev) eps vids,
      r.parquet_uri = some (pqUri e)
      ∧ r.status = (match lookupPrevFp prev e.chunk i with
          | some (some g) =>
              if combine_episode_fingerprint ps = g then Status.UNCHANGED
              else Status.PENDING
          | _ => Status.PENDING) := by
  have hfe : fingerprint_episode e = scanRowOk e i ps := by
    rw [fingerprint_episode, hpi, hps]
  obtain ⟨x, hx, hxe⟩ := remapRow_first prev (fingerprint_episode e)
  refine ⟨x, ?_, ?_, ?_⟩
  · rw [discover_eq, List.mem_insertionSort, List.mem_append, List.mem_append]
    left; left
    rw [remapAll, List.mem_flatMap]
    exact ⟨fingerprint_episode e, List.mem_map.mpr ⟨e, he, rfl⟩, hx⟩
  · rw [hxe, hfe]
    rfl
  · rw [hxe, hfe]
    have hst : (scanRowOk e i ps).status = Status.PENDING := by
      rw [scanRowOk]
      simp [hpend]
    show remapStatus (scanRowOk e i ps) (lookupPrevFp prev e.chunk i) = _
    rw [remapStatus_scanRowOk]
    cases hl : lookupPrevFp prev e.chunk i with
    | none => exact hst
    | some f =>
      cases f with
      | none => exact hst
      | some g => rw [hst]

theorem pending_row_reconciliation_witness :
    ∃ r ∈ discover (some [⟨"001", 4, none⟩])
        [⟨"001", "episode_000004", ⟨true, false, some ⟨1, 2, "cc"⟩⟩,
          ⟨false, true, none⟩, ⟨false, true, none⟩⟩] [],
      r.parquet_uri = some (pqUri ⟨"001", "episode_000004",
          ⟨true, false, some ⟨1, 2, "cc"⟩⟩, ⟨false, true, none⟩, ⟨false, true, none⟩⟩)
      ∧ r.status = (match lookupPrevFp [⟨"001", 4, none⟩] "001" 4 with
          | some (some g) =>
              if combine_episode_fingerprint [("parquet", ⟨1, 2, "cc"⟩)] = g then
                Status.UNCHANGED
              else Status.PENDING
          | _ => Status.PENDING) :=
  pending_row_reconciliation [⟨"001", 4, none⟩]
    [⟨"001", "episode_000004", ⟨true, false, some ⟨1, 2, "cc"⟩⟩,
      ⟨false, true, none⟩, ⟨false, true, none⟩⟩] []
    _ 4 [("parquet", ⟨1, 2, "cc"⟩)] (by decide) (by decide) (by decide) (by decide)

/-- Fixtures for the C2 counterexample: an episode mid-write (front
video unstable) whose fresh fingerprint matches the previous run. -/
def fpC2a : FileFP := ⟨10, 100, "aa"⟩

def fpC2b : FileFP := ⟨20, 200, "bb"⟩

def eC2 : EpisodeInput :=
  ⟨"000", "episode_000005", ⟨true, true, some fpC2a⟩, ⟨true, false, some fpC2b⟩,
    ⟨false, true, none⟩⟩

def prevC2 : List PrevEntry :=
  [⟨"000", 5, some (combine_episode_fingerprint
      [("parquet", fpC2a), (camFront, fpC2b)])⟩]

/-- C2 counterexample: `eC2` has an existing front video that is not yet
stable (so the claim demands `PENDING`), its fingerprint computation
succeeds, and the fresh fingerprint equals the previous run's
fingerprint for key `("000", 5)`; the persisted manifest reports the row
`UNCHANGED`, not `PENDING`. -/
theorem pending_downgraded_to_unchanged_cex :
    pendingCheck eC2 = true
    ∧ (discover (some prevC2) [eC2] []).map Row.status = [Status.UNCHANGED] := by
  decide

/-! ### Claim C4 -/

/-- C4 amended: for every key present in the previous manifest but
absent from the current scan, the persisted manifest contains exactly
one `DELETED` row for that key, and that row has all file path fields
cleared, both exists flags false, `bytes_total` 0 and fingerprint
`None`.  (It is not the only row for that key in general: when an
orphan video for the same key is still on disk, `ORPHAN_VIDEO` rows for
the key coexist with the `DELETED` row; see the counterexample.) -/
theorem deletion_row_for_missing_key (prev : List PrevEntry) (eps : List EpisodeInput)
    (vids : List VideoFile) (k : String × Int)
    (hk : k ∈ prev.map (fun p => (p.chunk, p.episode_index)))
    (hnot : k ∉ (eps.map fingerprint_episode).map keyOf) :
    (discover (some prev) eps vids).countP
        (fun r => decide (keyOf r = k) && decide (r.status = Status.DELETED)) = 1
    ∧ ∀ r ∈ discover (some prev) eps vids,
        keyOf r = k → r.status = Status.DELETED → r = deletedRow k := by
  have hnotck : k ∉ (remapAll (some prev) (eps.map fingerprint_episode)).map keyOf :=
    fun hc => hnot (remapAll_keys.mp hc)
  constructor
  · rw [discover_eq,
      (List.perm_insertionSort rowLeProp _).countP_eq
        (fun r => decide (keyOf r = k) && decide (r.status = Status.DELETED)),
      List.countP_append, List.countP_append]
    have hscan : (remapAll (some prev) (eps.map fingerprint_episode)).countP
        (fun r => decide (keyOf r = k) && decide (r.status = Status.DELETED)) = 0 := by
      apply List.countP_eq_zero.mpr
      intro r hr
      simp only [Bool.and_eq_true, decide_eq_true_eq, not_and]
      intro hkey _
      exact hnotck (List.mem_map.mpr ⟨r, hr, hkey⟩)
    have horph : (orphanRows vids
          ((remapAll (some prev) (eps.map fingerprint_episode)).map keyOf)).countP
        (fun r => decide (keyOf r = k) && decide (r.status = Status.DELETED)) = 0 := by
      apply List.countP_eq_zero.mpr
      intro r hr
      obtain ⟨v, -, i, -, rfl, -⟩ := orphanRows_shape r hr
      simp [orphanRow]
    have hdel : (deletionRows (some prev)
          ((remapAll (some prev) (eps.map fingerprint_episode)).map keyOf)).countP
        (fun r => decide (keyOf r = k) && decide (r.status = Status.DELETED)) = 1 := by
      rw [deletionRows, List.countP_map]
      have hpred : ∀ x ∈ ((prev.map (fun p => (p.chunk, p.episode_index))).dedup).filter
          (fun k2 => decide (k2 ∉ (remapAll (some prev)
            (eps.map fingerprint_episode)).map keyOf)),
          ((fun r => decide (keyOf r = k) && decide (r.status = Status.DELETED))
              ∘ deletedRow) x = true
            ↔ (fun x => decide (x = k)) x = true := by
        intro x _
        simp [deletedRow, keyOf]
      rw [List.countP_congr hpred]
      apply countP_eq_one_of_nodup
      · exact ((prev.map (fun p => (p.chunk, p.episode_index))).nodup_dedup).filter _
      · rw [List.mem_filter]
        exact ⟨List.mem_dedup.mpr hk, by simpa using hnotck⟩
    rw [hscan, horph, hdel]
  · intro r hr hkey hst
    rw [discover_eq, List.mem_insertionSort, List.mem_append, List.mem_append] at hr
    rcases hr with (hr | hr) | hr
    · exact absurd hst (remapAll_status hr).1
    · obtain ⟨k2, rfl, -⟩ := deletionRows_shape r hr
      have : k2 = k := hkey
      rw [this]
    · obtain ⟨v, -, i, -, rfl, -⟩ := orphanRows_shape r hr
      exact absurd hst (by simp [orphanRow])

theorem deletion_row_for_missing_key_witness :
    (discover (some [⟨"000", 5, some [("parquet", ⟨1, 1, "aa"⟩)]⟩]) [] []).countP
        (fun r => decide (keyOf r = ("000", 5)) && decide (r.status = Status.DELETED)) = 1
    ∧ ∀ r ∈ discover (some [⟨"000", 5, some [("parquet", ⟨1, 1, "aa"⟩)]⟩]) [] [],
        keyOf r = ("000", 5) → r.status = Status.DELETED → r = deletedRow ("000", 5) :=
  deletion_row_for_missing_key [⟨"000", 5, some [("parquet", ⟨1, 1, "aa"⟩)]⟩] [] []
    ("000", 5) (by decide) (by decide)

/-- Fixture for the C4 counterexample: the previous run knew key
`("000", 5)`; the current scan has no trajectory file, but an orphan
front video for episode 5 is still on disk. -/
def prevC4 : List PrevEntry := [⟨"000", 5, some [("parquet", ⟨1, 1, "aa"⟩)]⟩]

/-- C4 counterexample: for previously-known key `("000", 5)` absent from
the current scan, the persisted manifest contains two rows for the key —
the `DELETED` row plus an `ORPHAN_VIDEO` row for the leftover video — so
it does not contain exactly one row for that key. -/
theorem deletion_row_not_unique_cex :
    (discover (some prevC4) [] [⟨"000", camFront, "episode_000005", some 3⟩]).map
        (fun r => (keyOf r, r.status))
      = [(("000", 5), Status.DELETED), (("000", 5), Status.ORPHAN_VIDEO)] := by
  decide

/-! ### Claim C7 -/

/-- C7 amended: within a persisted manifest, at most one row per key has
status `DELETED`, and `DELETED` and `ORPHAN_VIDEO` rows never share
their key with a row of the current scan.  Full key uniqueness does not
hold: all unparseable trajectory filenames of a chunk share key
`(chunk, -1)`, and an episode index orphaned in both camera views
yields two `ORPHAN_VIDEO` rows with the same key (see the
counterexample). -/
theorem manifest_key_partial_uniqueness (pm : Option (List PrevEntry))
    (eps : List EpisodeInput) (vids : List VideoFile) :
    (∀ k : String × Int,
      (discover pm eps vids).countP
        (fun r => decide (keyOf r = k) && decide (r.status = Status.DELETED)) ≤ 1)
    ∧ ∀ r ∈ discover pm eps vids,
        (r.status = Status.DELETED ∨ r.status = Status.ORPHAN_VIDEO) →
          keyOf r ∉ (eps.map fingerprint_episode).map keyOf := by
  constructor
  · intro k
    rw [discover_eq,
      (List.perm_insertionSort rowLeProp _).countP_eq
        (fun r => decide (keyOf r = k) && decide (r.status = Status.DELETED)),
      List.countP_append, List.countP_append]
    have hscan : (remapAll pm (eps.map fingerprint_episode)).countP
        (fun r => decide (keyOf r = k) && decide (r.status = Status.DELETED)) = 0 := by
      apply List.countP_eq_zero.mpr
      intro r hr
      simp only [Bool.and_eq_true, decide_eq_true_eq, not_and]
      intro _ hst
      exact absurd hst (remapAll_status hr).1
    have horph : (orphanRows vids
          ((remapAll pm (eps.map fingerprint_episode)).map keyOf)).countP
        (fun r => decide (keyOf r = k) && decide (r.status = Status.DELETED)) = 0 := by
      apply List.countP_eq_zero.mpr
      intro r hr
      obtain ⟨v, -, i, -, rfl, -⟩ := orphanRows_shape r hr
      simp [orphanRow]
    rw [hscan, horph]
    cases pm with
    | none => simp [deletionRows]
    | some prev =>
      rw [deletionRows, List.countP_map]
      have hpred : ∀ x ∈ ((prev.map (fun p => (p.chunk, p.episode_index))).dedup).filter
          (fun k2 => decide (k2 ∉ (remapAll (some prev)
            (eps.map fingerprint_episode)).map keyOf)),
          ((fun r => decide (keyOf r = k) && decide (r.status = Status.DELETED))
              ∘ deletedRow) x = true
            ↔ (fun x => decide (x = k)) x = true := by
        intro x _
        simp [deletedRow, keyOf]
      rw [List.countP_congr hpred]
      simpa using countP_le_one_of_nodup
        (((prev.map (fun p => (p.chunk, p.episode_index))).nodup_dedup).filter _) k
  · intro r hr hst
    rw [discover_eq, List.mem_insertionSort, List.mem_append, List.mem_append] at hr
    rcases hr with (hr | hr) | hr
    · rcases hst with hst | hst
      · exact absurd hst (remapAll_status hr).1
      · exact absurd hst (remapAll_status hr).2
    · obtain ⟨k2, rfl, hk2⟩ := deletionRows_shape r hr
      intro hmem
      exact hk2 (remapAll_keys.mpr hmem)
    · obtain ⟨v, -, i, -, rfl, hvk⟩ := orphanRows_shape r hr
      intro hmem
      exact hvk (remapAll_keys.mpr hmem)

theorem manifest_key_partial_uniqueness_witness :
    (∀ k : String × Int,
      (discover (some prevC4) [] []).countP
        (fun r => decide (keyOf r = k) && decide (r.status = Status.DELETED)) ≤ 1)
    ∧ ∀ r ∈ discover (some prevC4) [] [],
        (r.status = Status.DELETED ∨ r.status = Status.ORPHAN_VIDEO) →
          keyOf r ∉ (([] : List EpisodeInput).map fingerprint_episode).map keyOf :=
  manifest_key_partial_uniqueness (some prevC4) [] []

/-- Fixtures for the C7 counterexample: both camera views hold an orphan
video for episode 7 of chunk `000`. -/
def vC7front : VideoFile := ⟨"000", camFront, "episode_000007", some 5⟩

def vC7wrist : VideoFile := ⟨"000", camWrist, "episode_000007", some 5⟩

/-- C7 counterexample: when both camera views have an orphan video for
the same episode index, the persisted manifest holds two `ORPHAN_VIDEO`
rows with the same key `("000", 7)` — keys are not unique within the
manifest. -/
theorem dual_camera_orphan_duplicate_key_cex :
    (discover none [] [vC7front, vC7wrist]).map (fun r => (keyOf r, r.status))
      = [(("000", 7), Status.ORPHAN_VIDEO), (("000", 7), Status.ORPHAN_VIDEO)]
    ∧ ¬ ((discover none [] [vC7front, vC7wrist]).map keyOf).Nodup := by
  decide

/-! ### Claim C8 -/

/-- C8 amended: in every persisted manifest, a row carrying a
fingerprint has `bytes_total` equal to the sum of the sizes of exactly
the files that were fingerprinted for it, and a row carrying no
fingerprint has `bytes_total` 0 — except `ORPHAN_VIDEO` rows, which
carry no fingerprint yet record the orphan video's size in
`bytes_total` (see the counterexample). -/
theorem bytes_total_characterization (pm : Option (List PrevEntry))
    (eps : List EpisodeInput) (vids : List VideoFile) :
    ∀ r ∈ discover pm eps vids,
      (∀ ps, r.fingerprint = some ps →
        r.bytes_total = (ps.map (fun q => q.2.size)).sum)
      ∧ (r.fingerprint = none → r.status = Status.ORPHAN_VIDEO ∨ r.bytes_total = 0) := by
  intro r hr
  rw [discover_eq, List.mem_insertionSort, List.mem_append, List.mem_append] at hr
  rcases hr with (hr | hr) | hr
  · obtain ⟨e, he, fpp, hx⟩ := mem_remapAll hr
    have hbase : (∀ ps, (fingerprint_episode e).fingerprint = some ps →
          (fingerprint_episode e).bytes_total = (ps.map (fun q => q.2.size)).sum)
        ∧ ((fingerprint_episode e).fingerprint = none →
            (fingerprint_episode e).bytes_total = 0) := by
      rcases fingerprint_episode_cases e with ⟨i, ps0, -, -, hfe⟩ | ⟨i, -, -, hfe⟩ | ⟨-, hfe⟩
      · rw [hfe]
        constructor
        · intro ps hps
          have hps2 : combine_episode_fingerprint ps0 = ps := Option.some_inj.mp hps
          subst hps2
          show (ps0.map (fun q => q.2.size)).sum = _
          exact (((List.perm_insertionSort keyLeProp ps0).map
            (fun q => q.2.size)).sum_eq).symm
        · intro hnone
          exact absurd hnone (by simp [scanRowOk])
      · rw [hfe]
        exact ⟨fun ps hps => absurd hps (by simp [scanRowFail]), fun _ => rfl⟩
      · rw [hfe]
        exact ⟨fun ps hps => absurd hps (by simp [errorNameRow]), fun _ => rfl⟩
    cases fpp with
    | none =>
      subst hx
      exact ⟨hbase.1, fun hn => Or.inr (hbase.2 hn)⟩
    | some f =>
      subst hx
      exact ⟨fun ps hps => hbase.1 ps hps, fun hn => Or.inr (hbase.2 hn)⟩
  · obtain ⟨k2, rfl, -⟩ := deletionRows_shape r hr
    exact ⟨fun ps hps => absurd hps (by simp [deletedRow]), fun _ => Or.inr rfl⟩
  · obtain ⟨v, -, i, -, rfl, -⟩ := orphanRows_shape r hr
    exact ⟨fun ps hps => absurd hps (by simp [orphanRow]), fun _ => Or.inl rfl⟩

theorem bytes_total_characterization_witness :
    (∀ ps, (deletedRow ("000", 5)).fingerprint = some ps →
      (deletedRow ("000", 5)).bytes_total = (ps.map (fun q => q.2.size)).sum)
    ∧ ((deletedRow ("000", 5)).fingerprint = none →
        (deletedRow ("000", 5)).status = Status.ORPHAN_VIDEO
          ∨ (deletedRow ("000", 5)).bytes_total = 0) :=
  bytes_total_characterization (some prevC4) [] [] (deletedRow ("000", 5)) (by decide)

/-- Fixture for the C8 counterexample: an orphan front video of 7 bytes
for an episode with no trajectory file. -/
def vC8 : VideoFile := ⟨"000", camFront, "episode_000002", some 7⟩

/-- C8 counterexample: an `ORPHAN_VIDEO` row fingerprints no file at all
(its fingerprint is `None`), yet its `bytes_total` is the orphan
video's size 7, not 0. -/
theorem orphan_bytes_total_cex :
    (discover none [] [vC8]).map (fun r => (r.status, r.fingerprint, r.bytes_total))
      = [(Status.ORPHAN_VIDEO, none, 7)] := by
  decide

/-! ### Claim C9 -/

/-- C9 amended: for a fixed tree and parameters, two discovery runs
whose fingerprinting tasks complete in different orders (the only
observable effect of a different `workers` setting) persist manifests
that are equal as multisets of rows; and whenever the manifest's
`(chunk, episode_index)` keys are pairwise distinct, the persisted
manifests are identical row for row.  With duplicate keys (e.g. two
unparseable filenames in one chunk) the relative order of equal-key
rows is not determined by the sort and can differ — see the
counterexample.  Timestamps are outside the row model, matching the
claim's exclusion of `discovered_at`. -/
theorem discover_completion_order_invariance (pm : Option (List PrevEntry))
    (eps1 eps2 : List EpisodeInput) (vids : List VideoFile)
    (hperm : eps1.Perm eps2) :
    (discover pm eps1 vids).Perm (discover pm eps2 vids)
    ∧ (((discover pm eps1 vids).map keyOf).Nodup →
        discover pm eps1 vids = discover pm eps2 vids) := by
  have hrows : (eps1.map fingerprint_episode).Perm (eps2.map fingerprint_episode) :=
    hperm.map _
  have hcur : (remapAll pm (eps1.map fingerprint_episode)).Perm
      (remapAll pm (eps2.map fingerprint_episode)) := by
    cases pm with
    | none => exact hrows
    | some prev => exact hrows.flatMap_right _
  have hkeys : ∀ k : String × Int,
      k ∈ (remapAll pm (eps1.map fingerprint_episode)).map keyOf ↔
        k ∈ (remapAll pm (eps2.map fingerprint_episode)).map keyOf :=
    fun k => (hcur.map keyOf).mem_iff
  have hdel : deletionRows pm ((remapAll pm (eps1.map fingerprint_episode)).map keyOf)
      = deletionRows pm ((remapAll pm (eps2.map fingerprint_episode)).map keyOf) := by
    cases pm with
    | none => rfl
    | some prev =>
      rw [deletionRows, deletionRows]
      congr 1
      apply List.filter_congr
      intro k _
      exact decide_eq_decide.mpr (not_congr (hkeys k))
  have horph : orphanRows vids ((remapAll pm (eps1.map fingerprint_episode)).map keyOf)
      = orphanRows vids ((remapAll pm (eps2.map fingerprint_episode)).map keyOf) := by
    rw [orphanRows, orphanRows]
    apply List.filterMap_congr
    intro v _
    cases parseEpisodeIndex v.stem with
    | none => rfl
    | some i =>
      dsimp only
      by_cases hin : (v.chunk, i) ∈
          (remapAll pm (eps1.map fingerprint_episode)).map keyOf
      · rw [if_pos hin, if_pos ((hkeys (v.chunk, i)).mp hin)]
      · rw [if_neg hin, if_neg (fun hc => hin ((hkeys (v.chunk, i)).mpr hc))]
  have hconcat : (remapAll pm (eps1.map fingerprint_episode)
        ++ deletionRows pm ((remapAll pm (eps1.map fingerprint_episode)).map keyOf)
        ++ orphanRows vids ((remapAll pm (eps1.map fingerprint_episode)).map keyOf)).Perm
      (remapAll pm (eps2.map fingerprint_episode)
        ++ deletionRows pm ((remapAll pm (eps2.map fingerprint_episode)).map keyOf)
        ++ orphanRows vids ((remapAll pm (eps2.map fingerprint_episode)).map keyOf)) := by
    rw [← hdel, ← horph]
    exact (hcur.append_right _).append_right _
  have hglobal : (discover pm eps1 vids).Perm (discover pm eps2 vids) := by
    rw [discover_eq, discover_eq]
    exact (List.perm_insertionSort rowLeProp _).trans
      (hconcat.trans (List.perm_insertionSort rowLeProp _).symm)
  refine ⟨hglobal, ?_⟩
  intro hnod
  have hs1 : (discover pm eps1 vids).Sorted rowLeProp := by
    rw [discover_eq]
    exact List.sorted_insertionSort rowLeProp _
  have hs2 : (discover pm eps2 vids).Sorted rowLeProp := by
    rw [discover_eq]
    exact List.sorted_insertionSort rowLeProp _
  exact sorted_rows_unique hglobal hs1 hs2 hnod

/-- Fixtures for the C9 witness: two well-formed episodes with distinct
keys, fingerprinted in either order. -/
def eC9c : EpisodeInput :=
  ⟨"000", "episode_000001", ⟨true, true, some ⟨1, 1, "s1"⟩⟩, ⟨false, true, none⟩,
    ⟨false, true, none⟩⟩

def eC9d : EpisodeInput :=
  ⟨"000", "episode_000002", ⟨true, true, some ⟨2, 2, "s2"⟩⟩, ⟨false, true, none⟩,
    ⟨false, true, none⟩⟩

theorem discover_completion_order_invariance_witness :
    discover none [eC9c, eC9d] [] = discover none [eC9d, eC9c] [] :=
  (discover_completion_order_invariance none [eC9c, eC9d] [eC9d, eC9c] []
    (List.Perm.swap eC9d eC9c [])).2 (by decide)

/-- Fixtures for the C9 counterexample: two trajectory files of the same
chunk with unparseable names, hence the duplicate key `("000", -1)`. -/
def eC9a : EpisodeInput :=
  ⟨"000", "episode_a", ⟨true, true, some ⟨1, 1, "s1"⟩⟩, ⟨false, true, none⟩,
    ⟨false, true, none⟩⟩

def eC9b : EpisodeInput :=
  ⟨"000", "episode_b", ⟨true, true, some ⟨2, 2, "s2"⟩⟩, ⟨false, true, none⟩,
    ⟨false, true, none⟩⟩

/-- C9 counterexample: the same two scanned files handed to the
fingerprinting pool, completing in the two possible orders, persist
different manifests: both rows carry key `("000", -1)`, the sort by
`(chunk, episode_index)` cannot discriminate between them, and the
completion order shows through.  (polars does not even promise a
deterministic order among equal sort keys; the model's stable sort
realizes one possible behaviour, under which the outputs differ.) -/
theorem discover_completion_order_cex :
    discover none [eC9a, eC9b] [] ≠ discover none [eC9b, eC9a] []
    ∧ [eC9a, eC9b].Perm [eC9b, eC9a] :=
  ⟨by decide, List.Perm.swap eC9b eC9a []⟩

theorem orphan_scan_skips_unparseable_witness :
    discover none [] ([] ++ ⟨"000", camFront, "episode_x", some 3⟩ :: []) = discover none [] ([] ++ [])
    ∧ ∀ e : EpisodeInput, parseEpisodeIndex e.pqStem = none →
        (fingerprint_episode e).status = Status.ERROR
        ∧ (fingerprint_episode e).episode_index = -1
        ∧ (fingerprint_episode e).errors = some Diag.badEpisodeName :=
  orphan_scan_skips_unparseable none [] [] [] ⟨"000", camFront, "episode_x", some 3⟩ (by decide)

end Neura



